import Mathlib

/-!
Verification of the `lenskit.sharing` model-sharing subsystem
(`src/lenskit/sharing/__init__.py` and `src/lenskit/sharing/sharedmem.py`)
through a shallow embedding in Lean 4.  Python byte strings are modelled as
`List Nat`, shared-memory segment names and model ids (UUIDs) as `Nat`,
and the OS shared-memory table as an explicit state threaded through the
operations.
-/

namespace LKSharing

/-! ## Sharing-mode flag (`sharing_mode` / `in_share_context`) -/

/-- The thread-local `mode` value: `'save'` (default) or `'share'`. -/
inductive SaveMode where
  | save
  | share
deriving DecidableEq, Repr

/-- The sharing-mode context: the current thread-local `mode` together with
the stack of `old` values saved by the dynamically nested `sharing_mode`
context managers (innermost first).  Each active `with sharing_mode()` block
holds one saved prior mode in its local variable `old`. -/
structure ShareCtx where
  mode : SaveMode
  savedStack : List SaveMode
deriving DecidableEq, Repr

/-- The default context: no `sharing_mode` block entered, `_save_mode()`
falls back to `'save'`. -/
def defaultShareCtx : ShareCtx := ⟨SaveMode.save, []⟩

/-- Entering `sharing_mode()`: `old = _save_mode()` is saved and the mode is
set to `'share'`. -/
def sharingModeEnter (c : ShareCtx) : ShareCtx :=
  ⟨SaveMode.share, c.mode :: c.savedStack⟩

/-- Exiting `sharing_mode()` (the `finally` clause, so it runs on normal and
error exit alike): restore the innermost saved mode. -/
def sharingModeExit (c : ShareCtx) : ShareCtx :=
  match c.savedStack with
  | [] => c
  | old :: rest => ⟨old, rest⟩

/-- `in_share_context()`: the current mode equals `'share'`. -/
def in_share_context (c : ShareCtx) : Bool :=
  c.mode = SaveMode.share

/-- The saved-mode stack of a context reachable from the default by balanced
enters and exits: every saved mode is `'share'` except the outermost, which is
the `'save'` default. -/
def stackOk : List SaveMode → Prop
  | [] => False
  | [m] => m = SaveMode.save
  | m :: rest => m = SaveMode.share ∧ stackOk rest

/-- Invariant of contexts reachable from the default context. -/
def ctxInv (c : ShareCtx) : Prop :=
  (c.savedStack = [] ∧ c.mode = SaveMode.save) ∨
    (c.mode = SaveMode.share ∧ stackOk c.savedStack)

/-! ## Store-selection policy (`get_store`) -/

/-- The store that `get_store` returns: the top of the activation stack
(identified by its id), or a newly constructed store of one of the three
concrete classes. -/
inductive StoreSel where
  | reused (sid : Nat)
  | noopStore
  | shmStore
  | fileStore
deriving DecidableEq, Repr

/-- The `elif` chain of `get_store` past the reuse case: a fresh
`NoopModelStore()` if `in_process`, else `SHMModelStore()` if
`SHMModelStore.ENABLED`, else `FileModelStore()`. -/
def selectNewStore (in_process shm_enabled : Bool) : StoreSel :=
  if in_process then StoreSel.noopStore
  else if shm_enabled then StoreSel.shmStore
  else StoreSel.fileStore

/-- `get_store(reuse, in_process=...)`: `stores = _active_stores()`;
`if reuse and stores: return stores[-1]`; otherwise fall through to the
`elif` chain.  The activation stack holds store ids, top at the end
(Python `list.append` / `stores[-1]`). -/
def get_store (reuse in_process shm_enabled : Bool) (stores : List Nat) : StoreSel :=
  match reuse, stores.getLast? with
  | true, some s => StoreSel.reused s
  | _, _ => selectNewStore in_process shm_enabled

/-! ## Pickling of stores and clients (`__getstate__`) -/

/-- Error taxonomy of the subsystem as it appears in the code: Python
`RuntimeError` raised when pickling a store plays the spec's ProtocolError
role; `FileNotFoundError` from `SharedMemory.unlink` on a missing segment
plays NotFoundError; a failure inside `pickle.dumps` plays
SerializationError. -/
inductive SMErr where
  | protocol
  | notFound
  | serialization
deriving DecidableEq, Repr

/-- The live objects whose pickling behaviour the code defines: an abstract
`BaseModelStore`, a `NoopModelStore`, an `SHMModelStore`, and a standalone
`SHMClient`. -/
inductive ShareObj where
  | baseStore
  | noopStore
  | shmStoreObj
  | shmClientObj
deriving DecidableEq, Repr

/-- `isinstance(self, BaseModelStore)`: every store is; a standalone
`SHMClient` is not. -/
def isStoreInstance : ShareObj → Bool
  | ShareObj.shmClientObj => false
  | _ => true

/-- `BaseModelStore.__getstate__`: unconditionally
`raise RuntimeError('stores cannot be pickled, ...')`. -/
def baseStore_getstate : Except SMErr (List Nat) :=
  Except.error SMErr.protocol

/-- `SHMClient.__getstate__`: raise if `isinstance(self, BaseModelStore)`,
else return the empty state dict `{}` (modelled as the empty list). -/
def shmClient_getstate (o : ShareObj) : Except SMErr (List Nat) :=
  if isStoreInstance o then Except.error SMErr.protocol
  else Except.ok []

/-- Attribute resolution of `__getstate__` on each object.  Per Python's MRO,
`SHMModelStore(BaseModelStore, SHMClient)` resolves `__getstate__` to
`BaseModelStore.__getstate__` (the first base defining it); `NoopModelStore`
inherits it from `BaseModelStore`; a standalone `SHMClient` uses its own. -/
def getstate : ShareObj → Except SMErr (List Nat)
  | ShareObj.baseStore => baseStore_getstate
  | ShareObj.noopStore => baseStore_getstate
  | ShareObj.shmStoreObj => baseStore_getstate
  | ShareObj.shmClientObj => shmClient_getstate ShareObj.shmClientObj

/-- `NoopModelStore.client`: `return self`. -/
def NoopModelStore.client (s : ShareObj) : ShareObj := s

/-! ## The OS shared-memory primitive (`multiprocessing.shared_memory`)

A segment is a named region whose allocated contents may be longer than the
requested size (page-alignment padding); creation copies nothing yet, but
`put_model` immediately blits the buffer into the start of the region, so we
model creation as allocating the padded contents directly.  The amount of
padding the OS adds to each successive allocation is an oracle list carried
in the system state. -/

/-- An OS shared-memory segment: its name and its allocated bytes
(`len data` is the allocated size, at least the requested size). -/
structure ShmSeg where
  name : Nat
  data : List Nat
deriving DecidableEq, Repr

/-- The OS shared-memory table: the live segments, a fresh-name counter, and
the padding oracle (bytes of page-alignment slack for each successive
allocation). -/
structure ShmSys where
  segs : List ShmSeg
  nextName : Nat
  pads : List Nat
deriving DecidableEq, Repr

/-- `shm.SharedMemory(create=True, size=n)` followed by blitting `content`
(of length `n`) into the start of the region: a fresh name is assigned and
the allocated region is the content followed by the OS padding. -/
def shmCreate (sys : ShmSys) (content : List Nat) : ShmSys × ShmSeg :=
  let seg : ShmSeg := ⟨sys.nextName, content ++ List.replicate (sys.pads.headD 0) 0⟩
  (⟨sys.segs ++ [seg], sys.nextName + 1, sys.pads.tail⟩, seg)

/-- `shm.SharedMemory(name=n)`: attach to the named segment, if present. -/
def shmOpen (sys : ShmSys) (n : Nat) : Option ShmSeg :=
  sys.segs.find? (fun s => s.name = n)

/-- `SharedMemory.unlink()`: remove the named segment; raises
`FileNotFoundError` if it was already unlinked. -/
def shmUnlink (sys : ShmSys) (n : Nat) : Except SMErr ShmSys :=
  if sys.segs.any (fun s => s.name = n) then
    Except.ok ⟨sys.segs.filter (fun s => ¬ s.name = n), sys.nextName, sys.pads⟩
  else
    Except.error SMErr.notFound

/-- Well-formedness of the OS table: every live segment's name is below the
fresh-name counter, so newly created segments never collide. -/
def SysWF (sys : ShmSys) : Prop :=
  ∀ s ∈ sys.segs, s.name < sys.nextName

/-! ## Keys and models -/

/-- `(name, size)` buffer specifier: the segment name together with the
buffer's logical length (the allocated segment may be larger). -/
structure BufDesc where
  name : Nat
  size : Nat
deriving DecidableEq, Repr

/-- `SHMKey(id, data, buffers)`: model identifier, pickled header bytes, and
the ordered buffer specifiers. -/
structure SHMKey where
  id : Nat
  data : List Nat
  buffers : List BufDesc
deriving DecidableEq, Repr

/-- A model as the out-of-band encoder sees it: the header bytes that
`pickle.dumps` produces once every large buffer has been extracted through
the buffer callback, and the raw out-of-band buffers in the order the hook
fires for them. -/
structure Model where
  header : List Nat
  bufs : List (List Nat)
deriving DecidableEq, Repr

/-- `pickle.loads(data, buffers=views)`: the out-of-band decoder rebuilds the
model from the header bytes and the positionally supplied buffer views
(collaborator of the subsystem; its concrete byte format is external). -/
def pickle_loads (data : List Nat) (views : List (List Nat)) : Model :=
  ⟨data, views⟩

/-! ## `SHMModelStore.put_model` -/

/-- The store's `self.buffers` map from model id to the list of segments it
allocated for that id (segment handles modelled by their names). -/
structure StoreState where
  buffers : List (Nat × List Nat)
deriving DecidableEq, Repr

/-- One invocation of the buffer callback `buf_cb(buf)`: allocate a segment
of exactly the buffer's byte length, blit the buffer into its start, append
the handle to `buffers` and the `(name, nbytes)` pair to `buf_keys`. -/
def buf_cb (sys : ShmSys) (buffers : List Nat) (buf_keys : List BufDesc)
    (ba : List Nat) : ShmSys × List Nat × List BufDesc :=
  let (sys', block) := shmCreate sys ba
  (sys', buffers ++ [block.name], buf_keys ++ [⟨block.name, ba.length⟩])

/-- `pickle.dumps(model, protocol=5, buffer_callback=buf_cb)`: the hook fires
once per out-of-band buffer, in extraction order; `failAt = some k` means the
encoder raises after the hook has fired `k` times (so a partial prefix of the
segments has already been allocated), `failAt = none` means encoding
completes and yields the header bytes. -/
def pickle_dumps (sys : ShmSys) (bufs : List (List Nat)) (buffers : List Nat)
    (buf_keys : List BufDesc) (failAt : Option Nat) (header : List Nat) :
    ShmSys × List Nat × List BufDesc × Option (List Nat) :=
  match failAt, bufs with
  | some 0, _ => (sys, buffers, buf_keys, none)
  | none, [] => (sys, buffers, buf_keys, some header)
  | some _, [] => (sys, buffers, buf_keys, some header)
  | fa, ba :: rest =>
      let (sys', bl, bk) := buf_cb sys buffers buf_keys ba
      pickle_dumps sys' rest bl bk (fa.map Nat.pred) header

/-- `SHMModelStore.put_model(model)`: run the encoder with `buf_cb`; on
success record the new segments under the fresh id in `self.buffers` and
return `SHMKey(id, data, buf_keys)`; on encoder failure the exception
propagates (the returned `ShmSys` is the OS state at that point, and the
store state is unchanged). -/
def put_model (st : StoreState) (sys : ShmSys) (newId : Nat) (m : Model)
    (failAt : Option Nat) : ShmSys × Except SMErr (StoreState × SHMKey) :=
  match pickle_dumps sys m.bufs [] [] failAt m.header with
  | (sys', _, _, none) => (sys', Except.error SMErr.serialization)
  | (sys', buffers, buf_keys, some data) =>
      (sys', Except.ok (⟨st.buffers ++ [(newId, buffers)]⟩, ⟨newId, data, buf_keys⟩))

/-! ## `SHMClient.get_model` -/

/-- The client's one-entry cache: `_last_key`, `_last_model`, `_last_bufs`
(the retained open segment handles, modelled by their names). -/
structure ClientState where
  lastKey : Option SHMKey
  lastModel : Option Model
  lastBufs : Option (List Nat)
deriving DecidableEq, Repr

/-- A freshly constructed `SHMClient()`: all three cache slots `None`. -/
def freshClient : ClientState := ⟨none, none, none⟩

/-- The buffer-opening loop of `get_model`: for each `(bn, bs)` pair in
order, attach `shm.SharedMemory(name=bn)` and take the view
`block.buf[:bs]`.  Returns the names opened so far (instrumentation of the
open primitive) and either the views or the error. -/
def openBufs (sys : ShmSys) (descs : List BufDesc) (buffers : List (List Nat))
    (shm_bufs : List Nat) : List Nat × Except SMErr (List (List Nat)) :=
  match descs with
  | [] => (shm_bufs, Except.ok buffers)
  | d :: rest =>
      match shmOpen sys d.name with
      | none => (shm_bufs, Except.error SMErr.notFound)
      | some block =>
          openBufs sys rest (buffers ++ [block.data.take d.size])
            (shm_bufs ++ [block.name])

/-- `SHMClient.get_model(key)`: if `self._last_key and self._last_key.id ==
key.id` (an `SHMKey` is a non-empty named tuple, hence always truthy when not
`None`), return `self._last_model` with no segment touched; otherwise clear
`_last_model`/`_last_bufs`, open the buffers, decode with the views supplied
positionally, and install the new cache entry.  The middle component of the
result is the list of segment names opened during the call.

First, the cache test `self._last_key and self._last_key.id == key.id`. -/
def cacheHit (cst : ClientState) (key : SHMKey) : Bool :=
  match cst.lastKey with
  | some lk => lk.id == key.id
  | none => false

/-- `SHMClient.get_model(key)`, continued: dispatch on the cache test. -/
def get_model (sys : ShmSys) (cst : ClientState) (key : SHMKey) :
    ClientState × List Nat × Except SMErr (Option Model) :=
  if cacheHit cst key then
    (cst, [], Except.ok cst.lastModel)
  else
    let cst1 : ClientState := ⟨cst.lastKey, none, none⟩
    match openBufs sys key.buffers [] [] with
    | (opened, Except.error e) => (cst1, opened, Except.error e)
    | (opened, Except.ok views) =>
        let model := pickle_loads key.data views
        (⟨some key, some model, some opened⟩, opened, Except.ok (some model))

/-! ## `SHMModelStore.shutdown` -/

/-- The inner loop of `shutdown`: `buf.close(); buf.unlink()` for each
segment of one id (`close` detaches the local mapping and touches no shared
state).  The first `unlink` failure propagates immediately. -/
def unlinkSegs (sys : ShmSys) (names : List Nat) : ShmSys × Except SMErr Unit :=
  match names with
  | [] => (sys, Except.ok ())
  | n :: rest =>
      match shmUnlink sys n with
      | Except.error e => (sys, Except.error e)
      | Except.ok sys' => unlinkSegs sys' rest

/-- The outer loop of `shutdown` over `self.buffers.items()`. -/
def shutdownEntries (sys : ShmSys) (entries : List (Nat × List Nat)) :
    ShmSys × Except SMErr Unit :=
  match entries with
  | [] => (sys, Except.ok ())
  | (_, bs) :: rest =>
      match unlinkSegs sys bs with
      | (sys', Except.error e) => (sys', Except.error e)
      | (sys', Except.ok ()) => shutdownEntries sys' rest

/-- `SHMModelStore.shutdown()`: close and unlink every owned segment, then
`del self.buffers` (the cleared map is `none`); if an unlink raises, the
exception propagates and `self.buffers` keeps all its entries. -/
def shutdown (st : StoreState) (sys : ShmSys) :
    ShmSys × Except SMErr Unit × Option StoreState :=
  match shutdownEntries sys st.buffers with
  | (sys', Except.ok ()) => (sys', Except.ok (), none)
  | (sys', Except.error e) => (sys', Except.error e, some st)

/-- All segment names recorded in an owned-segment map, in iteration
order. -/
def ownedNames (entries : List (Nat × List Nat)) : List Nat :=
  entries.foldr (fun e acc => e.2 ++ acc) []

/-! ## Store activation (`BaseModelStore.__enter__` / `__exit__`) -/

/-- The lifecycle calls a scope transition can fire. -/
inductive ActEv where
  | initEv
  | shutdownEv
deriving DecidableEq, Repr

/-- The activation state of one store: its `_act_count` (a Python `int`, so
modelled as `Int`) and the per-context `_active_stores()` list of store ids,
top at the end (Python `append` / `pop`). -/
structure ActState where
  act_count : Int
  active : List Nat
deriving DecidableEq, Repr

/-- `BaseModelStore.__enter__` for the store with id `sid`: call `init` if
the count is 0, then increment it and append `self` to the active list.
Returns the new state and the lifecycle events fired. -/
def storeEnter (sid : Nat) (s : ActState) : ActState × List ActEv :=
  let evs := if s.act_count = 0 then [ActEv.initEv] else []
  (⟨s.act_count + 1, s.active ++ [sid]⟩, evs)

/-- `BaseModelStore.__exit__` for the store with id `sid`: decrement the
count, call `shutdown` if it reached 0, assert the top of the active list is
`self`, and pop it.  `none` models the `AssertionError` on stack-discipline
violation (which cannot happen in a balanced single-store run). -/
def storeExit (sid : Nat) (s : ActState) : Option (ActState × List ActEv) :=
  let c := s.act_count - 1
  let evs := if c = 0 then [ActEv.shutdownEv] else []
  match s.active.getLast? with
  | some t => if t = sid then some (⟨c, s.active.dropLast⟩, evs) else none
  | none => none

/-- A scope operation on one store. -/
inductive ScopeOp where
  | enter
  | exit
deriving DecidableEq, Repr

/-- Run a sequence of enter/exit operations of the store `sid`, collecting
the lifecycle events in order. -/
def runActs (sid : Nat) : List ScopeOp → ActState → Option (ActState × List ActEv)
  | [], s => some (s, [])
  | ScopeOp.enter :: rest, s =>
      let (s', e) := storeEnter sid s
      match runActs sid rest s' with
      | some (s'', es) => some (s'', e ++ es)
      | none => none
  | ScopeOp.exit :: rest, s =>
      match storeExit sid s with
      | some (s', e) =>
          match runActs sid rest s' with
          | some (s'', es) => some (s'', e ++ es)
          | none => none
      | none => none

/-- The segments a run of the buffer callback creates for the buffer list
`bufs` when the fresh-name counter starts at `n` and the padding oracle is
`pads`: segment `n + i` holds the `i`-th buffer followed by its padding. -/
def newSegs : Nat → List Nat → List (List Nat) → List ShmSeg
  | _, _, [] => []
  | n, pads, b :: rest =>
      ⟨n, b ++ List.replicate (pads.headD 0) 0⟩ :: newSegs (n + 1) pads.tail rest

/-! ## Helper lemmas -/

deriving instance DecidableEq for Except

lemma pickle_dumps_fail (k : Nat) :
    ∀ (segs : List ShmSeg) (n : Nat) (pads : List Nat) (bufs : List (List Nat))
      (B : List Nat) (K : List BufDesc) (hd : List Nat), k ≤ bufs.length →
      ∃ B' K',
        pickle_dumps ⟨segs, n, pads⟩ bufs B K (some k) hd =
          (⟨segs ++ newSegs n pads (bufs.take k), n + k, pads.drop k⟩,
           B', K', none) := by
  induction k with
  | zero =>
      intro segs n pads bufs B K hd _
      refine ⟨B, K, ?_⟩
      cases bufs <;> simp [pickle_dumps, newSegs]
  | succ k ih =>
      intro segs n pads bufs B K hd hk
      cases bufs with
      | nil => simp at hk
      | cons b rest =>
          have hk' : k ≤ rest.length := by simpa using hk
          obtain ⟨B', K', heq⟩ :=
            ih (segs ++ [⟨n, b ++ List.replicate (pads.headD 0) 0⟩]) (n + 1)
              pads.tail rest (B ++ [n]) (K ++ [⟨n, b.length⟩]) hd hk'
          refine ⟨B', K', ?_⟩
          rw [pickle_dumps]
          simp only [buf_cb, shmCreate]
          rw [show Option.map Nat.pred (some (k + 1)) = some k from rfl, heq]
          have e1 : (segs ++ [(⟨n, b ++ List.replicate (pads.headD 0) 0⟩ : ShmSeg)]) ++
              newSegs (n + 1) pads.tail (rest.take k) =
              segs ++ newSegs n pads ((b :: rest).take (k + 1)) := by
            simp [newSegs, List.append_assoc]
          have e2 : n + 1 + k = n + (k + 1) := by omega
          have e3 : pads.tail.drop k = pads.drop (k + 1) := by
            rw [← List.drop_one, List.drop_drop, Nat.add_comm]
          rw [e1, e2, e3]
          simp

lemma pickle_dumps_ok (bufs : List (List Nat)) :
    ∀ (segs : List ShmSeg) (n : Nat) (pads : List Nat) (B : List Nat)
      (K : List BufDesc) (hd : List Nat),
      pickle_dumps ⟨segs, n, pads⟩ bufs B K none hd =
        (⟨segs ++ newSegs n pads bufs, n + bufs.length, pads.drop bufs.length⟩,
         B ++ (newSegs n pads bufs).map ShmSeg.name,
         K ++ List.zipWith (fun nm b => BufDesc.mk nm b.length)
           (List.range' n bufs.length) bufs,
         some hd) := by
  induction bufs with
  | nil =>
      intro segs n pads B K hd
      simp [pickle_dumps, newSegs]
  | cons b rest ih =>
      intro segs n pads B K hd
      rw [pickle_dumps]
      dsimp only [buf_cb, shmCreate]
      rw [show Option.map Nat.pred (none : Option Nat) = none from rfl]
      rw [ih]
      have e1 : (segs ++ [(⟨n, b ++ List.replicate (pads.headD 0) 0⟩ : ShmSeg)]) ++
          newSegs (n + 1) pads.tail rest = segs ++ newSegs n pads (b :: rest) := by
        simp [newSegs, List.append_assoc]
      have e2 : n + 1 + rest.length = n + (b :: rest).length := by
        simp; omega
      have e3 : pads.tail.drop rest.length = pads.drop (b :: rest).length := by
        rw [← List.drop_one, List.drop_drop, Nat.add_comm]
        rfl
      have e4 : (B ++ [n]) ++ (newSegs (n + 1) pads.tail rest).map ShmSeg.name =
          B ++ (newSegs n pads (b :: rest)).map ShmSeg.name := by
        simp [newSegs, List.append_assoc]
      have e5 : (K ++ [(⟨n, b.length⟩ : BufDesc)]) ++
          List.zipWith (fun nm bb => BufDesc.mk nm bb.length)
            (List.range' (n + 1) rest.length) rest =
          K ++ List.zipWith (fun nm bb => BufDesc.mk nm bb.length)
            (List.range' n (b :: rest).length) (b :: rest) := by
        simp [List.range'_succ, List.append_assoc]
      rw [e1, e2, e3, e4, e5]
      simp

lemma zipWith_desc_name (ns : List Nat) :
    ∀ bs : List (List Nat), ns.length = bs.length →
      (List.zipWith (fun nm b => BufDesc.mk nm b.length) ns bs).map BufDesc.name = ns := by
  induction ns with
  | nil => intro bs _; simp
  | cons a t ih =>
      intro bs hlen
      cases bs with
      | nil => simp at hlen
      | cons b bt =>
          simp only [List.zipWith_cons_cons, List.map_cons]
          rw [ih bt (by simpa using hlen)]

lemma zipWith_desc_size (ns : List Nat) :
    ∀ bs : List (List Nat), ns.length = bs.length →
      (List.zipWith (fun nm b => BufDesc.mk nm b.length) ns bs).map BufDesc.size =
        bs.map List.length := by
  induction ns with
  | nil =>
      intro bs hlen
      cases bs with
      | nil => simp
      | cons b bt => simp at hlen
  | cons a t ih =>
      intro bs hlen
      cases bs with
      | nil => simp at hlen
      | cons b bt =>
          simp only [List.zipWith_cons_cons, List.map_cons]
          rw [ih bt (by simpa using hlen)]

lemma openBufs_newSegs (bufs : List (List Nat)) :
    ∀ (old : List ShmSeg) (n nn : Nat) (pp pads : List Nat)
      (B : List (List Nat)) (S : List Nat),
      (∀ s ∈ old, s.name < n) →
      openBufs ⟨old ++ newSegs n pads bufs, nn, pp⟩
          (List.zipWith (fun nm b => BufDesc.mk nm b.length)
            (List.range' n bufs.length) bufs) B S =
        (S ++ List.range' n bufs.length, Except.ok (B ++ bufs)) := by
  induction bufs with
  | nil =>
      intro old n nn pp pads B S _
      simp [openBufs]
  | cons b rest ih =>
      intro old n nn pp pads B S hold
      have hdescs : List.zipWith (fun nm bb => BufDesc.mk nm bb.length)
          (List.range' n (b :: rest).length) (b :: rest) =
          (⟨n, b.length⟩ : BufDesc) :: List.zipWith (fun nm bb => BufDesc.mk nm bb.length)
            (List.range' (n + 1) rest.length) rest := by
        simp [List.range'_succ]
      have hfind : shmOpen ⟨old ++ newSegs n pads (b :: rest), nn, pp⟩ n =
          some ⟨n, b ++ List.replicate (pads.headD 0) 0⟩ := by
        rw [shmOpen]
        dsimp only
        rw [List.find?_append]
        have h1 : old.find? (fun s => decide (s.name = n)) = none := by
          rw [List.find?_eq_none]
          intro s hs
          simp only [decide_eq_true_eq]
          exact Nat.ne_of_lt (hold s hs)
        rw [h1]
        simp [newSegs]
      rw [hdescs, openBufs, hfind]
      dsimp only
      have hview : (b ++ List.replicate (pads.headD 0) 0).take b.length = b :=
        List.take_left' rfl
      rw [hview]
      have hsys : old ++ newSegs n pads (b :: rest) =
          (old ++ [(⟨n, b ++ List.replicate (pads.headD 0) 0⟩ : ShmSeg)]) ++
            newSegs (n + 1) pads.tail rest := by
        simp [newSegs, List.append_assoc]
      rw [hsys]
      have hold' : ∀ s ∈ old ++ [(⟨n, b ++ List.replicate (pads.headD 0) 0⟩ : ShmSeg)],
          s.name < n + 1 := by
        intro s hs
        rcases List.mem_append.mp hs with hs | hs
        · exact Nat.lt_succ_of_lt (hold s hs)
        · rcases List.mem_singleton.mp hs with rfl
          exact Nat.lt_succ_self n
      have hrec := ih (old ++ [(⟨n, b ++ List.replicate (pads.headD 0) 0⟩ : ShmSeg)])
        (n + 1) nn pp pads.tail (B ++ [b]) (S ++ [n]) hold'
      rw [hrec]
      simp [List.range'_succ, List.append_assoc]

lemma runActs_append (sid : Nat) (l1 : List ScopeOp) :
    ∀ (l2 : List ScopeOp) (s : ActState),
      runActs sid (l1 ++ l2) s =
        (match runActs sid l1 s with
         | some (s', e1) =>
             (match runActs sid l2 s' with
              | some (s'', e2) => some (s'', e1 ++ e2)
              | none => none)
         | none => none) := by
  induction l1 with
  | nil =>
      intro l2 s
      rw [List.nil_append]
      show runActs sid l2 s =
        (match runActs sid l2 s with
         | some (s'', e2) => some (s'', [] ++ e2)
         | none => none)
      cases hr : runActs sid l2 s with
      | none => rfl
      | some r => simp
  | cons op rest ih =>
      intro l2 s
      cases op with
      | enter =>
          rw [List.cons_append, runActs, runActs]
          rcases hse : storeEnter sid s with ⟨s1, e1⟩
          dsimp only
          rw [ih l2 s1]
          cases h1 : runActs sid rest s1 with
          | none => rfl
          | some r1 =>
              obtain ⟨s2, es2⟩ := r1
              dsimp only
              cases h2 : runActs sid l2 s2 with
              | none => rfl
              | some r2 =>
                  obtain ⟨s3, es3⟩ := r2
                  dsimp only
                  rw [List.append_assoc]
      | exit =>
          rw [List.cons_append, runActs, runActs]
          cases hx : storeExit sid s with
          | none => rfl
          | some p =>
              obtain ⟨s1, e1⟩ := p
              dsimp only
              rw [ih l2 s1]
              cases h1 : runActs sid rest s1 with
              | none => rfl
              | some r1 =>
                  obtain ⟨s2, es2⟩ := r1
                  dsimp only
                  cases h2 : runActs sid l2 s2 with
                  | none => rfl
                  | some r2 =>
                      obtain ⟨s3, es3⟩ := r2
                      dsimp only
                      rw [List.append_assoc]

lemma runActs_enters_silent (sid : Nat) (k : Nat) :
    ∀ (c : Int) (stk : List Nat), 0 < c →
      runActs sid (List.replicate k ScopeOp.enter) ⟨c, stk⟩ =
        some (⟨c + k, stk ++ List.replicate k sid⟩, []) := by
  induction k with
  | zero =>
      intro c stk _
      simp [runActs]
  | succ k ih =>
      intro c stk hc
      rw [List.replicate_succ, runActs]
      dsimp only [storeEnter]
      rw [ih (c + 1) (stk ++ [sid]) (by omega)]
      rw [if_neg (by omega)]
      have e1 : c + 1 + (k : Int) = c + ((k + 1 : Nat) : Int) := by push_cast; ring
      have e2 : (stk ++ [sid]) ++ List.replicate k sid =
          stk ++ List.replicate (k + 1) sid := by
        rw [List.append_assoc]
        rfl
      rw [e1, e2]
      rfl

lemma runActs_exits_shutdown (sid : Nat) :
    ∀ (k : Nat) (stk : List Nat),
      runActs sid (List.replicate (k + 1) ScopeOp.exit)
          ⟨(k : Int) + 1, stk ++ List.replicate (k + 1) sid⟩ =
        some (⟨0, stk⟩, [ActEv.shutdownEv]) := by
  intro k
  induction k with
  | zero =>
      intro stk
      rw [List.replicate_one, List.replicate_one, runActs]
      dsimp only [storeExit]
      rw [List.getLast?_concat, List.dropLast_concat]
      dsimp only
      rw [if_pos rfl]
      norm_num [runActs]
  | succ k ih =>
      intro stk
      have hstack : stk ++ List.replicate (k + 1 + 1) sid =
          (stk ++ List.replicate (k + 1) sid) ++ [sid] := by
        rw [List.replicate_succ' (k + 1) sid, ← List.append_assoc]
      rw [List.replicate_succ, runActs, hstack]
      dsimp only [storeExit]
      rw [List.getLast?_concat, List.dropLast_concat]
      dsimp only
      rw [if_pos rfl]
      have hcount : ((k + 1 : Nat) : Int) + 1 - 1 = (k : Int) + 1 := by
        push_cast; ring
      rw [hcount]
      rw [if_neg (by omega)]
      dsimp only
      rw [ih stk]
      rfl

lemma unlinkSegs_ok (names : List Nat) :
    ∀ (segs : List ShmSeg) (n0 : Nat) (pads : List Nat),
      names.Nodup → (∀ m ∈ names, ∃ s ∈ segs, s.name = m) →
      unlinkSegs ⟨segs, n0, pads⟩ names =
        (⟨segs.filter (fun s => decide (¬ s.name ∈ names)), n0, pads⟩,
         Except.ok ()) := by
  induction names with
  | nil =>
      intro segs n0 pads _ _
      simp [unlinkSegs]
  | cons nm rest ih =>
      intro segs n0 pads hnd hpres
      have hany : (segs.any (fun s => s.name = nm)) = true := by
        obtain ⟨s, hs, hname⟩ := hpres nm (List.mem_cons_self nm rest)
        simp only [List.any_eq_true]
        exact ⟨s, hs, by simp [hname]⟩
      have hnd' := hnd
      rw [List.nodup_cons] at hnd'
      rw [unlinkSegs, shmUnlink, if_pos hany]
      dsimp only
      rw [ih (segs.filter (fun s => decide (¬ s.name = nm))) n0 pads hnd'.2 ?_]
      · have hfc : (segs.filter (fun s => decide (¬ s.name = nm))).filter
            (fun s => decide (¬ s.name ∈ rest)) =
            segs.filter (fun s => decide (¬ s.name ∈ nm :: rest)) := by
          rw [List.filter_filter]
          refine List.filter_congr ?_
          intro a _
          by_cases h1 : a.name = nm <;> by_cases h2 : a.name ∈ rest <;>
            simp [h1, h2]
        rw [hfc]
      · intro m hm
        obtain ⟨s, hs, hname⟩ := hpres m (List.mem_cons_of_mem nm hm)
        refine ⟨s, ?_, hname⟩
        rw [List.mem_filter]
        refine ⟨hs, ?_⟩
        have : ¬ m = nm := by
          intro hcontra
          exact hnd'.1 (hcontra ▸ hm)
        simp [hname, this]

lemma shutdownEntries_ok (entries : List (Nat × List Nat)) :
    ∀ (segs : List ShmSeg) (n0 : Nat) (pads : List Nat),
      (ownedNames entries).Nodup →
      (∀ m ∈ ownedNames entries, ∃ s ∈ segs, s.name = m) →
      shutdownEntries ⟨segs, n0, pads⟩ entries =
        (⟨segs.filter (fun s => decide (¬ s.name ∈ ownedNames entries)), n0, pads⟩,
         Except.ok ()) := by
  induction entries with
  | nil =>
      intro segs n0 pads _ _
      simp [shutdownEntries, ownedNames]
  | cons e rest ih =>
      intro segs n0 pads hnd hpres
      have howned : ownedNames (e :: rest) = e.2 ++ ownedNames rest := rfl
      rw [howned, List.nodup_append] at hnd
      obtain ⟨hnd1, hnd2, hdisj⟩ := hnd
      rw [shutdownEntries]
      rw [unlinkSegs_ok e.2 segs n0 pads hnd1 ?_]
      · dsimp only
        rw [ih (segs.filter (fun s => decide (¬ s.name ∈ e.2))) n0 pads hnd2 ?_]
        · have hfc : (segs.filter (fun s => decide (¬ s.name ∈ e.2))).filter
              (fun s => decide (¬ s.name ∈ ownedNames rest)) =
              segs.filter (fun s => decide (¬ s.name ∈ ownedNames (e :: rest))) := by
            rw [List.filter_filter]
            refine List.filter_congr ?_
            intro a _
            rw [howned]
            by_cases h1 : a.name ∈ e.2 <;> by_cases h2 : a.name ∈ ownedNames rest <;>
              simp [h1, h2]
          rw [hfc]
        · intro m hm
          obtain ⟨s, hs, hname⟩ := hpres m (by rw [howned]; exact List.mem_append_right _ hm)
          refine ⟨s, ?_, hname⟩
          rw [List.mem_filter]
          refine ⟨hs, ?_⟩
          have : ¬ m ∈ e.2 := fun hcontra => hdisj hcontra hm
          simp [hname, this]
      · intro m hm
        exact hpres m (by rw [howned]; exact List.mem_append_left _ hm)

lemma stackOk_ne_nil {l : List SaveMode} (h : stackOk l) : l ≠ [] := by
  cases l with
  | nil => simp [stackOk] at h
  | cons a t => simp

/-! ## Claim theorems -/

/-- C5: entering a sharing scope sets the mode to Share, and exiting restores
the mode in effect at entry (the restore sits in a `finally`, so every exit
path — error exits included — performs the same `sharingModeExit`);
entering a Share scope nested in another and exiting the inner one leaves
the mode Share, exiting the outer one restores the default `'save'`
(Persist); and on every reachable context `in_share_context` reports exactly
whether a sharing scope is currently entered. -/
theorem claim_C5 :
    (∀ c : ShareCtx, in_share_context (sharingModeEnter c) = true) ∧
    (∀ c : ShareCtx, sharingModeExit (sharingModeEnter c) = c) ∧
    in_share_context defaultShareCtx = false ∧
    (sharingModeExit (sharingModeEnter (sharingModeEnter defaultShareCtx)) =
        sharingModeEnter defaultShareCtx ∧
      in_share_context
          (sharingModeExit (sharingModeEnter (sharingModeEnter defaultShareCtx))) = true ∧
      (sharingModeExit (sharingModeExit
          (sharingModeEnter (sharingModeEnter defaultShareCtx)))).mode = SaveMode.save) ∧
    (∀ c : ShareCtx, ctxInv c → (in_share_context c = true ↔ c.savedStack ≠ [])) ∧
    ctxInv defaultShareCtx ∧
    (∀ c : ShareCtx, ctxInv c → ctxInv (sharingModeEnter c)) ∧
    (∀ c : ShareCtx, ctxInv c → ctxInv (sharingModeExit c)) := by
  refine ⟨fun c => rfl, fun c => rfl, rfl, ⟨rfl, rfl, rfl⟩, ?_, ?_, ?_, ?_⟩
  · intro c hc
    rcases hc with ⟨hs, hm⟩ | ⟨hm, hs⟩
    · simp [in_share_context, hs, hm]
    · simp [in_share_context, hm, stackOk_ne_nil hs]
  · exact Or.inl ⟨rfl, rfl⟩
  · intro c hc
    rcases hc with ⟨hs, hm⟩ | ⟨hm, hs⟩
    · exact Or.inr ⟨rfl, by simp [sharingModeEnter, hs, hm, stackOk]⟩
    · refine Or.inr ⟨rfl, ?_⟩
      rcases l : c.savedStack with _ | ⟨a, t⟩
      · exact absurd l (stackOk_ne_nil hs)
      · simp only [sharingModeEnter, hm, l]
        exact ⟨rfl, l ▸ hs⟩
  · intro c hc
    rcases hc with ⟨hs, hm⟩ | ⟨hm, hs⟩
    · simp only [sharingModeExit, hs]
      exact Or.inl ⟨hs, hm⟩
    · rcases l : c.savedStack with _ | ⟨a, t⟩
      · exact absurd l (stackOk_ne_nil hs)
      · rcases t with _ | ⟨b, u⟩
        · have ha : a = SaveMode.save := by
            have := l ▸ hs
            simpa [stackOk] using this
          simp only [sharingModeExit, l, ha]
          exact Or.inl ⟨rfl, rfl⟩
        · have h2 := l ▸ hs
          have ha : a = SaveMode.share ∧ stackOk (b :: u) := h2
          simp only [sharingModeExit, l]
          exact Or.inr ⟨ha.1, ha.2⟩

/-- C5 witness: the exactness part of `claim_C5` instantiated at the context
reached by entering one sharing scope from the default. -/
theorem claim_C5_witness :
    in_share_context ⟨SaveMode.share, [SaveMode.save]⟩ = true ↔
      ([SaveMode.save] : List SaveMode) ≠ [] :=
  claim_C5.2.2.2.2.1 ⟨SaveMode.share, [SaveMode.save]⟩ (Or.inr ⟨rfl, rfl⟩)

/-- C6: `get_store` follows the exact priority of the source: with
`reuse=True` and a non-empty activation stack it returns the stack's top
store (so two calls inside the same entered scope return the identical
store, whatever the other flags); otherwise `in_process=True` yields a fresh
no-op store; otherwise the shared-memory store when the platform primitive is
available (`SHMModelStore.ENABLED`), and the file-based fallback when not. -/
theorem claim_C6 :
    (∀ (p e : Bool) (stores : List Nat) (s : Nat),
        stores.getLast? = some s → get_store true p e stores = StoreSel.reused s) ∧
    (∀ (p e p' e' : Bool) (stores : List Nat) (s : Nat),
        stores.getLast? = some s →
        get_store true p e stores = get_store true p' e' stores) ∧
    (∀ (r e : Bool) (stores : List Nat), (r = false ∨ stores = []) →
        get_store r true e stores = StoreSel.noopStore) ∧
    (∀ (r : Bool) (stores : List Nat), (r = false ∨ stores = []) →
        get_store r false true stores = StoreSel.shmStore) ∧
    (∀ (r : Bool) (stores : List Nat), (r = false ∨ stores = []) →
        get_store r false false stores = StoreSel.fileStore) := by
  have htop : ∀ (p e : Bool) (stores : List Nat) (s : Nat),
      stores.getLast? = some s → get_store true p e stores = StoreSel.reused s := by
    intro p e stores s hs
    simp [get_store, hs]
  have hnew : ∀ (r p e : Bool) (stores : List Nat), (r = false ∨ stores = []) →
      get_store r p e stores = selectNewStore p e := by
    intro r p e stores h
    rcases h with h | h
    · subst h; simp [get_store]
    · subst h; cases r <;> simp [get_store]
  refine ⟨htop, ?_, ?_, ?_, ?_⟩
  · intro p e p' e' stores s hs
    rw [htop p e stores s hs, htop p' e' stores s hs]
  · intro r e stores h; rw [hnew r true e stores h]; rfl
  · intro r stores h; rw [hnew r false true stores h]; rfl
  · intro r stores h; rw [hnew r false false stores h]; rfl

/-- C6 witness: `claim_C6` instantiated on a stack whose top store has id 7,
and on the empty stack for the three fresh-store cases. -/
theorem claim_C6_witness :
    get_store true false false [3, 7] = StoreSel.reused 7 ∧
    get_store true true true [3, 7] = get_store true false false [3, 7] ∧
    get_store true true true ([] : List Nat) = StoreSel.noopStore ∧
    get_store true false true ([] : List Nat) = StoreSel.shmStore ∧
    get_store true false false ([] : List Nat) = StoreSel.fileStore :=
  ⟨claim_C6.1 false false [3, 7] 7 (by decide),
   claim_C6.2.1 true true false false [3, 7] 7 (by decide),
   claim_C6.2.2.1 true true [] (Or.inr rfl),
   claim_C6.2.2.2.1 true [] (Or.inr rfl),
   claim_C6.2.2.2.2 true [] (Or.inr rfl)⟩

/-- C8: serializing any live store — the base class, the no-op store, or the
shared-memory store (whose Python MRO resolves `__getstate__` to
`BaseModelStore`'s) — raises the protocol error, while a standalone
shared-memory client serializes to the empty state. -/
theorem claim_C8 :
    (∀ o : ShareObj, isStoreInstance o = true →
        getstate o = Except.error SMErr.protocol) ∧
    getstate ShareObj.shmClientObj = Except.ok [] := by
  constructor
  · intro o ho
    cases o <;> first | rfl | simp [isStoreInstance] at ho
  · rfl

/-- C8 witness: `claim_C8` applied to the shared-memory store object. -/
theorem claim_C8_witness :
    getstate ShareObj.shmStoreObj = Except.error SMErr.protocol :=
  claim_C8.1 ShareObj.shmStoreObj (by decide)

/-- C10: the no-op store's `client()` returns the store object itself, and
pickling that "client" raises the store pickling error, even though clients
are in general meant to be cheaply picklable. -/
theorem claim_C10 :
    NoopModelStore.client ShareObj.noopStore = ShareObj.noopStore ∧
    getstate (NoopModelStore.client ShareObj.noopStore) =
      Except.error SMErr.protocol :=
  ⟨rfl, rfl⟩

/-- C7: whenever a `get_model` call returns a model, a second call with the
same key returns the very same model from the one-entry cache, opening no
segment at all (the opened-name instrumentation list is empty): the cache-hit
branch fires because the cached key's id equals the requested key's id. -/
theorem claim_C7 (sys : ShmSys) (cst cst₂ : ClientState) (key : SHMKey)
    (ns : List Nat) (m : Model)
    (h : get_model sys cst key = (cst₂, ns, Except.ok (some m))) :
    get_model sys cst₂ key = (cst₂, [], Except.ok (some m)) := by
  by_cases hc : cacheHit cst key
  · rw [get_model, if_pos hc] at h
    simp only [Prod.mk.injEq] at h
    obtain ⟨h1, _, h3⟩ := h
    subst h1
    rw [get_model, if_pos hc]
    rw [Except.ok.injEq] at h3
    rw [h3]
  · rw [get_model, if_neg hc] at h
    rcases hob : openBufs sys key.buffers [] [] with ⟨opened, res⟩
    rw [hob] at h
    cases res with
    | error e => simp at h
    | ok views =>
        simp only [Prod.mk.injEq] at h
        obtain ⟨h1, _, h3⟩ := h
        have hhit : cacheHit cst₂ key = true := by
          rw [← h1]; simp [cacheHit]
        rw [get_model, if_pos hhit, ← h1]
        rw [Except.ok.injEq] at h3
        simp [h3]

/-- C7 witness: `claim_C7` applied after a concrete cache-miss retrieval of
a one-buffer model from a one-segment shared-memory table. -/
theorem claim_C7_witness :
    get_model ⟨[⟨0, [5, 6]⟩], 1, []⟩
        ⟨some ⟨1, [9], [⟨0, 2⟩]⟩, some ⟨[9], [[5, 6]]⟩, some [0]⟩
        ⟨1, [9], [⟨0, 2⟩]⟩ =
      (⟨some ⟨1, [9], [⟨0, 2⟩]⟩, some ⟨[9], [[5, 6]]⟩, some [0]⟩, [],
       Except.ok (some ⟨[9], [[5, 6]]⟩)) :=
  claim_C7 ⟨[⟨0, [5, 6]⟩], 1, []⟩ freshClient
    ⟨some ⟨1, [9], [⟨0, 2⟩]⟩, some ⟨[9], [[5, 6]]⟩, some [0]⟩
    ⟨1, [9], [⟨0, 2⟩]⟩ [0] ⟨[9], [[5, 6]]⟩ (by decide)

/-- C9: when a cache-miss `get_model` fails (a named segment is absent), the
client has already cleared `_last_model` and `_last_bufs` but still holds the
previous `_last_key`; a later call with that previously retrieved key
therefore takes the cache-hit branch and returns `None` instead of the
previously reconstructed model. -/
theorem claim_C9 (sys : ShmSys) (cst cst' : ClientState) (k0 k1 : SHMKey)
    (m0 : Model) (ns : List Nat) (e : SMErr)
    (hk : cst.lastKey = some k0) (_hm : cst.lastModel = some m0)
    (hne : ¬ k1.id = k0.id)
    (h : get_model sys cst k1 = (cst', ns, Except.error e)) :
    cst' = ⟨some k0, none, none⟩ ∧
      get_model sys cst' k0 = (cst', [], Except.ok none) ∧
      (Except.ok (some m0) : Except SMErr (Option Model)) ≠ Except.ok none := by
  have hc : ¬ cacheHit cst k1 = true := by
    simp [cacheHit, hk]
    simpa [eq_comm] using hne
  rw [get_model, if_neg hc] at h
  rcases hob : openBufs sys k1.buffers [] [] with ⟨opened, res⟩
  rw [hob] at h
  cases res with
  | ok views => simp at h
  | error e' =>
      simp only [Prod.mk.injEq] at h
      obtain ⟨h1, _, _⟩ := h
      have hcst' : cst' = ⟨some k0, none, none⟩ := by rw [← h1, hk]
      refine ⟨hcst', ?_, by simp⟩
      have hhit : cacheHit cst' k0 = true := by
        rw [hcst']; simp [cacheHit]
      rw [get_model, if_pos hhit, hcst']

/-- C9 witness: `claim_C9` applied to a client that had retrieved key 0 and
then failed to retrieve key 1, whose single descriptor names the absent
segment 5. -/
theorem claim_C9_witness :
    (⟨some ⟨0, [], []⟩, none, none⟩ : ClientState) = ⟨some ⟨0, [], []⟩, none, none⟩ ∧
      get_model ⟨[], 0, []⟩ ⟨some ⟨0, [], []⟩, none, none⟩ ⟨0, [], []⟩ =
        (⟨some ⟨0, [], []⟩, none, none⟩, [], Except.ok none) ∧
      (Except.ok (some (⟨[], []⟩ : Model)) : Except SMErr (Option Model)) ≠
        Except.ok none :=
  claim_C9 ⟨[], 0, []⟩ ⟨some ⟨0, [], []⟩, some ⟨[], []⟩, some []⟩
    ⟨some ⟨0, [], []⟩, none, none⟩ ⟨0, [], []⟩ ⟨1, [], [⟨5, 1⟩]⟩ ⟨[], []⟩
    [] SMErr.notFound (by decide) (by decide) (by decide) (by decide)

/-- C1 counterexample: encoding a two-buffer model fails after the buffer
hook has fired once; the error propagates, yet the segment created for the
first buffer survives in the OS table — it is not released, contradicting
the claim that no orphaned segments survive a failed `put_model` call. -/
theorem claim_C1_counterexample :
    (put_model ⟨[]⟩ ⟨[], 0, []⟩ 0 ⟨[7], [[1, 2], [3, 4]]⟩ (some 1)).2 =
        Except.error SMErr.serialization ∧
      (put_model ⟨[]⟩ ⟨[], 0, []⟩ 0 ⟨[7], [[1, 2], [3, 4]]⟩ (some 1)).1.segs =
        [⟨0, [1, 2]⟩] := by
  decide

/-- C1 amended: if encoding fails after the buffer hook has fired for `k` of
the model's buffers, the error propagates while the `k` segments already
created for the call remain allocated — none is released — and, the store's
owned-segment map being updated only on success, the orphaned segments
survive the failed call. -/
theorem claim_C1_amended (st : StoreState) (sys : ShmSys) (newId : Nat)
    (m : Model) (k : Nat) (hk : k ≤ m.bufs.length) :
    put_model st sys newId m (some k) =
      (⟨sys.segs ++ newSegs sys.nextName sys.pads (m.bufs.take k),
        sys.nextName + k, sys.pads.drop k⟩,
       Except.error SMErr.serialization) := by
  obtain ⟨segs, n, pads⟩ := sys
  obtain ⟨B', K', heq⟩ :=
    pickle_dumps_fail k segs n pads m.bufs [] [] m.header hk
  rw [put_model]
  dsimp only
  rw [heq]

/-- C1 witness: `claim_C1_amended` instantiated at the two-buffer model
whose encoding fails after one hook invocation. -/
theorem claim_C1_amended_witness :
    put_model ⟨[]⟩ ⟨[], 0, []⟩ 0 ⟨[7], [[1, 2], [3, 4]]⟩ (some 1) =
      (⟨[] ++ newSegs 0 [] ([[1, 2], [3, 4]].take 1), 0 + 1, []⟩,
       Except.error SMErr.serialization) :=
  claim_C1_amended ⟨[]⟩ ⟨[], 0, []⟩ 0 ⟨[7], [[1, 2], [3, 4]]⟩ 1 (by decide)

/-- C2 counterexample: a store owning segments 0 and 1 for one model id,
where segment 0 was already unlinked by a peer: `shutdown` raises the
not-found error from the first `unlink`, the remaining owned segment 1 is
never processed (it stays in the OS table) and the owned-segment map is not
cleared — contradicting the claim that an already-unlinked segment is
tolerated and the remaining segments still processed. -/
theorem claim_C2_counterexample :
    shutdown ⟨[(0, [0, 1])]⟩ ⟨[⟨1, [9]⟩], 2, []⟩ =
      (⟨[⟨1, [9]⟩], 2, []⟩, Except.error SMErr.notFound, some ⟨[(0, [0, 1])]⟩) := by
  decide

/-- C2 amended: `shutdown` closes and unlinks every segment recorded in the
owned-segment map and clears the map, provided every owned segment is still
linked (the owned names being distinct); unlinking an already-unlinked
segment is NOT tolerated — the error propagates at once, the remaining
segments are left unprocessed and the map is not cleared. -/
theorem claim_C2_amended (st : StoreState) (sys : ShmSys)
    (hnd : (ownedNames st.buffers).Nodup)
    (hpres : ∀ m ∈ ownedNames st.buffers, ∃ s ∈ sys.segs, s.name = m) :
    shutdown st sys =
      (⟨sys.segs.filter (fun s => decide (¬ s.name ∈ ownedNames st.buffers)),
        sys.nextName, sys.pads⟩,
       Except.ok (), none) := by
  obtain ⟨segs, n0, pads⟩ := sys
  rw [shutdown, shutdownEntries_ok st.buffers segs n0 pads hnd hpres]

/-- C2 witness: `claim_C2_amended` instantiated at a store owning segments 0
and 1 under two model ids, with a third unowned segment 2 left intact. -/
theorem claim_C2_amended_witness :
    shutdown ⟨[(0, [0]), (1, [1])]⟩ ⟨[⟨0, [1]⟩, ⟨1, [2]⟩, ⟨2, [3]⟩], 3, []⟩ =
      (⟨[⟨0, [1]⟩, ⟨1, [2]⟩, ⟨2, [3]⟩].filter
          (fun s => decide (¬ s.name ∈ ownedNames [(0, [0]), (1, [1])])),
        3, []⟩,
       Except.ok (), none) :=
  claim_C2_amended ⟨[(0, [0]), (1, [1])]⟩ ⟨[⟨0, [1]⟩, ⟨1, [2]⟩, ⟨2, [3]⟩], 3, []⟩
    (by decide) (by decide)

/-- C3: on a successful `put_model`, each externalized buffer yields exactly
one descriptor — the consecutive fresh segment names paired with the
buffers' exact byte lengths, in hook-firing order — and a fresh client's
`get_model` on the resulting key opens exactly the named segments in
descriptor order (the opened-name instrumentation list equals the
descriptors' names), takes from each a view of exactly `logicalLength`
bytes (recovering each buffer despite any OS padding in the allocated
segment), and hands those views positionally to the decoder, reconstructing
the model. -/
theorem claim_C3 (st : StoreState) (sys sys₂ : ShmSys) (newId : Nat) (m : Model)
    (st₂ : StoreState) (key : SHMKey) (hwf : SysWF sys)
    (h : put_model st sys newId m none = (sys₂, Except.ok (st₂, key))) :
    key.buffers = List.zipWith (fun nm b => BufDesc.mk nm b.length)
        (List.range' sys.nextName m.bufs.length) m.bufs ∧
    key.buffers.map BufDesc.size = m.bufs.map List.length ∧
    key.data = m.header ∧
    get_model sys₂ freshClient key =
      (⟨some key, some ⟨m.header, m.bufs⟩, some (key.buffers.map BufDesc.name)⟩,
       key.buffers.map BufDesc.name, Except.ok (some ⟨m.header, m.bufs⟩)) := by
  obtain ⟨segs, n, pads⟩ := sys
  have hdump := pickle_dumps_ok m.bufs segs n pads [] [] m.header
  rw [put_model, hdump] at h
  simp only [List.nil_append] at h
  simp only [Prod.mk.injEq, Except.ok.injEq] at h
  obtain ⟨hsys, _, hkey⟩ := h
  subst hsys
  subst hkey
  have hlen : (List.range' n m.bufs.length).length = m.bufs.length := by simp
  have hname := zipWith_desc_name (List.range' n m.bufs.length) m.bufs hlen
  have hsize := zipWith_desc_size (List.range' n m.bufs.length) m.bufs hlen
  refine ⟨rfl, hsize, rfl, ?_⟩
  have hwf' : ∀ s ∈ segs, s.name < n := hwf
  have hopen := openBufs_newSegs m.bufs segs n (n + m.bufs.length)
    (pads.drop m.bufs.length) pads [] [] hwf'
  simp only [List.nil_append] at hopen
  rw [get_model, if_neg (by simp [cacheHit, freshClient])]
  dsimp only [freshClient]
  rw [hopen]
  dsimp only [pickle_loads]
  rw [hname]

/-- C3 witness: `claim_C3` instantiated at a one-buffer model stored into an
empty OS table whose first allocation is padded by three bytes. -/
theorem claim_C3_witness :
    ([(⟨0, 2⟩ : BufDesc)] = List.zipWith (fun nm b => BufDesc.mk nm b.length)
        (List.range' 0 1) [[1, 2]]) ∧
    ([(⟨0, 2⟩ : BufDesc)].map BufDesc.size = [[1, 2]].map List.length) ∧
    (([9] : List Nat) = [9]) ∧
    get_model ⟨[⟨0, [1, 2, 0, 0, 0]⟩], 1, []⟩ freshClient ⟨5, [9], [⟨0, 2⟩]⟩ =
      (⟨some ⟨5, [9], [⟨0, 2⟩]⟩, some ⟨[9], [[1, 2]]⟩,
        some ([(⟨0, 2⟩ : BufDesc)].map BufDesc.name)⟩,
       [(⟨0, 2⟩ : BufDesc)].map BufDesc.name, Except.ok (some ⟨[9], [[1, 2]]⟩)) :=
  claim_C3 ⟨[]⟩ ⟨[], 0, [3]⟩ ⟨[⟨0, [1, 2, 0, 0, 0]⟩], 1, []⟩ 5 ⟨[9], [[1, 2]]⟩
    ⟨[(5, [0])]⟩ ⟨5, [9], [⟨0, 2⟩]⟩
    (by intro s hs; exact absurd hs (List.not_mem_nil s)) (by decide)

/-- C4: entering increments the activation count and appends the store to
the context's activation stack, exiting decrements the count and pops the
stack, `init` fires exactly on the 0→1 transitions and `shutdown` exactly on
the 1→0 transitions; consequently a balanced nest of `n ≥ 1` enters followed
by `n` exits fires `init` exactly once (at the first enter) and `shutdown`
exactly once (at the last exit), with every nested re-entry and inner exit
silent, and restores the initial state. -/
theorem claim_C4 :
    (∀ (sid : Nat) (s : ActState),
        (storeEnter sid s).1.act_count = s.act_count + 1 ∧
        (storeEnter sid s).1.active = s.active ++ [sid] ∧
        ((storeEnter sid s).2 = [ActEv.initEv] ↔ s.act_count = 0)) ∧
    (∀ (sid : Nat) (s s' : ActState) (evs : List ActEv),
        storeExit sid s = some (s', evs) →
        s'.act_count = s.act_count - 1 ∧ s'.active = s.active.dropLast ∧
        (evs = [ActEv.shutdownEv] ↔ s.act_count = 1)) ∧
    (∀ (sid : Nat) (n : Nat), 1 ≤ n →
        runActs sid
            (List.replicate n ScopeOp.enter ++ List.replicate n ScopeOp.exit)
            ⟨0, []⟩ =
          some (⟨0, []⟩, [ActEv.initEv, ActEv.shutdownEv])) := by
  refine ⟨?_, ?_, ?_⟩
  · intro sid s
    refine ⟨rfl, rfl, ?_⟩
    by_cases h : s.act_count = 0 <;> simp [storeEnter, h]
  · intro sid s s' evs h
    rw [storeExit] at h
    rcases hg : s.active.getLast? with _ | t
    · rw [hg] at h
      simp at h
    · rw [hg] at h
      dsimp only at h
      by_cases ht : t = sid
      · rw [if_pos ht] at h
        simp only [Option.some.injEq, Prod.mk.injEq] at h
        obtain ⟨hs', hevs⟩ := h
        refine ⟨by rw [← hs'], by rw [← hs'], ?_⟩
        rw [← hevs]
        constructor
        · intro he
          by_contra hne
          rw [if_neg (by omega)] at he
          exact List.cons_ne_nil _ _ he.symm
        · intro hone
          rw [if_pos (by omega)]
      · rw [if_neg ht] at h
        simp at h
  · intro sid n hn
    obtain ⟨k, rfl⟩ : ∃ k, n = k + 1 := ⟨n - 1, by omega⟩
    rw [runActs_append]
    have henters : runActs sid (List.replicate (k + 1) ScopeOp.enter) ⟨0, []⟩ =
        some (⟨(k : Int) + 1, List.replicate (k + 1) sid⟩, [ActEv.initEv]) := by
      rw [List.replicate_succ, runActs]
      dsimp only [storeEnter]
      rw [if_pos rfl]
      rw [show (0 : Int) + 1 = 1 from by norm_num]
      rw [runActs_enters_silent sid k 1 ([] ++ [sid]) (by omega)]
      dsimp only
      rw [show (1 : Int) + (k : Int) = (k : Int) + 1 from by ring]
      rfl
    rw [henters]
    dsimp only
    have hexits := runActs_exits_shutdown sid k []
    rw [List.nil_append] at hexits
    rw [hexits]
    rfl

/-- C4 witness: `claim_C4` applied to a doubly nested (re-entrant) balanced
scope on store 0: only the outermost transitions fire lifecycle calls. -/
theorem claim_C4_witness :
    runActs 0 (List.replicate 2 ScopeOp.enter ++ List.replicate 2 ScopeOp.exit)
        ⟨0, []⟩ =
      some (⟨0, []⟩, [ActEv.initEv, ActEv.shutdownEv]) :=
  claim_C4.2.2 0 2 (by decide)

end LKSharing
